import Mathlib

/-!
Verification of the AI vertical video enhancer core
(src/backend/ai_extender.py and src/backend/video_processing.py).

Modelling conventions.
Pixels are RGB triples of exact rationals.  The real pixel data is 8-bit
integer; every operation of the extender itself (crops, pastes, flips,
channel sums, integer means, the alpha gradient) is integer-valued and is
modelled exactly.  The two places where the libraries quantize
(PIL alpha compositing, cv2.addWeighted rounding to uint8) are modelled by
the exact affine formula the operation computes, without the final
rounding/saturation step.  The PIL Gaussian blur and the hosted
image-generation backend are external effects and appear as parameters of
the context; a Python exception raised by a modelled operation is an
Option result of none.
-/

/-- An RGB sample: exact rational channels (red, green, blue). -/
abbrev Pixel := ℚ × ℚ × ℚ

/-- A frame: a width times height grid of RGB samples.  Reads outside the
grid never happen at the call sites modelled here; the pix function is
total for convenience. -/
structure Img where
  width : Nat
  height : Nat
  pix : Nat → Nat → Pixel

/-- PIL Image.new(mode, (w, h), color): constant image. -/
def Img.new (w h : Nat) (c : Pixel) : Img := ⟨w, h, fun _ _ => c⟩

/-- PIL base.paste(over, (x0, y0)): writes over onto base at offset
(x0, y0), clipping to the canvas; the canvas size is unchanged. -/
def pasteImg (base over : Img) (x0 y0 : Int) : Img :=
  { base with
    pix := fun x y =>
      if x0 ≤ (x : Int) ∧ (x : Int) < x0 + over.width ∧
         y0 ≤ (y : Int) ∧ (y : Int) < y0 + over.height then
        over.pix ((x : Int) - x0).toNat ((y : Int) - y0).toNat
      else base.pix x y }

/-- PIL img.crop((l, t, r, b)): size (r - l, b - t); regions outside the
source are padded with black, as PIL does. -/
def cropImg (img : Img) (l t r b : Int) : Img :=
  { width := (r - l).toNat
    height := (b - t).toNat
    pix := fun x y =>
      let sx : Int := l + x
      let sy : Int := t + y
      if 0 ≤ sx ∧ sx < img.width ∧ 0 ≤ sy ∧ sy < img.height then
        img.pix sx.toNat sy.toNat
      else (0, 0, 0) }

/-- PIL img.transpose(Image.Transpose.FLIP_TOP_BOTTOM). -/
def flipTB (img : Img) : Img :=
  { img with pix := fun x y => img.pix x (img.height - 1 - y) }

/-- PIL img.resize((w, h), LANCZOS).  The output geometry is exact; the
Lanczos resampling arithmetic is floating point and is stood in for by
nearest-neighbour sampling (no claim depends on resampled pixel values). -/
def resizeImg (w h : Nat) (img : Img) : Img :=
  ⟨w, h, fun x y => img.pix (x * img.width / w) (y * img.height / h)⟩

/-- One channel of PIL alpha compositing: over the base with alpha a
(0 to 255), exact arithmetic. -/
def mixChannel (a o b : ℚ) : ℚ := (a * o + (255 - a) * b) / 255

/-- PIL base.paste(over, (x0, y0), mask): alpha-composite over onto base
using the L-mode mask (an alpha value per pixel of over). -/
def pasteMasked (base over : Img) (alpha : Nat → Nat → ℚ) (x0 y0 : Int) : Img :=
  { base with
    pix := fun x y =>
      if x0 ≤ (x : Int) ∧ (x : Int) < x0 + over.width ∧
         y0 ≤ (y : Int) ∧ (y : Int) < y0 + over.height then
        let ox := ((x : Int) - x0).toNat
        let oy := ((y : Int) - y0).toNat
        let a := alpha ox oy
        let p := over.pix ox oy
        let q := base.pix x y
        (mixChannel a p.1 q.1, mixChannel a p.2.1 q.2.1, mixChannel a p.2.2 q.2.2)
      else base.pix x y }

/-- cv2.addWeighted(A, wa, B, wb, 0): pixelwise wa * A + wb * B.  The
cv2 call requires equal sizes and rounds to uint8; the model takes the
geometry from the first operand and keeps the exact affine value. -/
def addWeighted (A : Img) (wa : ℚ) (B : Img) (wb : ℚ) : Img :=
  ⟨A.width, A.height, fun x y =>
    let p := A.pix x y
    let q := B.pix x y
    (wa * p.1 + wb * q.1, wa * p.2.1 + wb * q.2.1, wa * p.2.2 + wb * q.2.2)⟩

/-- cv2.cvtColor(f, BGR2RGB) and its inverse: swap the first and third
channels. -/
def swapRB (img : Img) : Img :=
  { img with pix := fun x y =>
      let p := img.pix x y
      (p.2.2, p.2.1, p.1) }

/-- Sum of one row of channel-sums, x below w. -/
def rowChannelTotal (img : Img) (y w : Nat) : ℚ :=
  ((List.range w).map (fun x =>
    let p := img.pix x y
    p.1 + p.2.1 + p.2.2)).sum

/-- np.array(img).sum(): the sum of every channel of every pixel. -/
def sumImg (img : Img) : ℚ :=
  ((List.range img.height).map (fun y => rowChannelTotal img y img.width)).sum

/-- Per-channel sums over the whole image (used by np.mean comparisons:
two means over the same pixel count compare exactly as the sums do). -/
def channelSums (img : Img) : ℚ × ℚ × ℚ :=
  (((List.range img.height).map (fun y =>
      ((List.range img.width).map (fun x => (img.pix x y).1)).sum)).sum,
   ((List.range img.height).map (fun y =>
      ((List.range img.width).map (fun x => (img.pix x y).2.1)).sum)).sum,
   ((List.range img.height).map (fun y =>
      ((List.range img.width).map (fun x => (img.pix x y).2.2)).sum)).sum)

/-- tuple(map(int, np.mean(pixels, axis=0))) over every pixel of img:
per-channel integer mean.  Channel values are nonnegative in every run, so
the int() truncation is the floor. -/
def avgColor (img : Img) : Pixel :=
  let n : ℚ := (img.width * img.height : Nat)
  let s := channelSums img
  (((s.1 / n).floor : Int), ((s.2.1 / n).floor : Int), ((s.2.2 / n).floor : Int))

/-- The position argument of the extension generator. -/
inductive Side where
  | top
  | bottom
deriving DecidableEq

/-- The cache key of ai_extender.py line 122: the string
position_width_extensionheight_edgehash; the four components determine
the string and conversely, so the key is modelled as the tuple. -/
structure CacheKey where
  side : Side
  width : Nat
  extH : Int
  edgeHash : ℚ
deriving DecidableEq

/-- The mutable state of one AIImageExtender instance: the extension
cache in insertion order plus the hit and miss counters. -/
structure ExtState where
  cache : List (CacheKey × Img)
  hits : Nat
  misses : Nat

/-- The initial state built by AIImageExtender.__init__. -/
def initState : ExtState := ⟨[], 0, 0⟩

/-- The fixed collaborators of one run: the truthiness of the configured
api token, the PIL Gaussian blur primitive, and the network side of the
generation backend, that is replicate.run plus the requests.get download
of ai_extender.py lines 169 to 190: some models a response carrying
image data (given here as its decoded pixel grid for typing), none
models a raised call or the no-output branch of line 192.  What the
LOCAL code then does with a successful response is modelled separately
(decodeDownloadedImage below), because that step always raises. -/
structure Ctx where
  apiToken : Bool
  blur : Img → Img
  netGen : Img → String → Option Img

/-- Lookup in the insertion-ordered cache (Python dict membership and
subscription). -/
def findEntry : List (CacheKey × Img) → CacheKey → Option Img
  | [], _ => none
  | e :: l, k => if e.1 = k then some e.2 else findEntry l k

/-- Python dict assignment d[k] = v: update in place when the key exists
(keeping its position), append otherwise. -/
def dictInsert (l : List (CacheKey × Img)) (k : CacheKey) (v : Img) :
    List (CacheKey × Img) :=
  if (findEntry l k).isSome then
    l.map (fun e => if e.1 = k then (k, v) else e)
  else l ++ [(k, v)]

/-- ai_extender.py lines 144 to 147: if the cache has grown past 50
entries, delete the first 10 keys in insertion order. -/
def cacheEvict (l : List (CacheKey × Img)) : List (CacheKey × Img) :=
  if 50 < l.length then l.drop 10 else l

/-- Cache insertion followed by the eviction check (lines 141 to 147). -/
def cachePut (l : List (CacheKey × Img)) (k : CacheKey) (v : Img) :
    List (CacheKey × Img) :=
  cacheEvict (dictInsert l k v)

/-- Well-formedness of the cache: every stored extension has exactly the
geometry recorded in its key.  Every insertion the code performs
preserves this. -/
def cacheWF (l : List (CacheKey × Img)) : Bool :=
  l.all (fun e => e.2.width == e.1.width && e.2.height == e.1.extH.toNat)

/-!
The procedural fallback generator, ai_extender.py lines 236 to 282.
-/

/-- ai_extender.py _fallback_extension.  Returns none where the Python
raises: when the edge strip is empty (source height below 3 rows, or zero
width) the np.mean of zero pixels is NaN and int(NaN) raises ValueError
(the preceding empty-image filter call raises on some PIL versions;
either way the call never returns), and when the blurred reflection does
not match the mask geometry PIL putalpha raises. -/
def fallbackExtension (ctx : Ctx) (img : Img) (side : Side)
    (width : Nat) (extH : Int) : Option Img :=
  let eh : Int := min (2 * extH) ((img.height : Int) / 3)
  let edge :=
    if side = Side.bottom then cropImg img 0 ((img.height : Int) - eh) width img.height
    else cropImg img 0 0 width eh
  let reflection := ctx.blur (flipTB edge)
  let maskA : Nat → Nat → ℚ := fun _ y => (((255 * (eh - y)).fdiv eh : Int) : ℚ)
  if reflection.width = width ∧ reflection.height = eh.toNat then
    if width = 0 ∨ eh ≤ 0 then none
    else
      let extension := Img.new width extH.toNat (avgColor edge)
      if eh < extH then
        some (pasteMasked extension reflection maskA 0 ((extH - eh).fdiv 2))
      else
        let reflC := cropImg reflection 0 0 width extH
        let maskC : Nat → Nat → ℚ := fun x y => if (y : Int) < extH then maskA x y else 0
        some (pasteMasked extension reflC maskC 0 0)
  else none

/-!
The AI extension generator, ai_extender.py lines 103 to 234.
-/

/-- ai_extender.py _generate_prompt_from_image: the prompt depends only on
which mean channel dominates; means over the same pixel count compare as
the channel sums do, so the comparisons are exact here.  The is_bright
and has_high_variance values of lines 209 and 210 are computed by the
source but never used and are omitted. -/
def promptFromImage (img : Img) (side : Side) : String :=
  let s := channelSums img
  match side with
  | Side.top =>
    if s.2.2 > s.1 ∧ s.2.2 > s.2.1 then
      "beautiful sky, fluffy white clouds, atmospheric lighting, cinematic, photorealistic"
    else if s.2.1 > s.1 ∧ s.2.1 > s.2.2 then
      "lush green landscape, rolling hills, natural environment, cinematic, photorealistic"
    else
      "natural landscape extension, seamless continuation, photorealistic, cinematic quality"
  | Side.bottom =>
    if s.2.1 > s.1 ∧ s.2.1 > s.2.2 then
      "lush green grass, natural ground, earth tones, photorealistic, cinematic"
    else if s.1 > s.2.1 ∧ s.1 > s.2.2 then
      "natural earth, ground texture, warm tones, photorealistic, cinematic"
    else
      "natural ground extension, seamless continuation, photorealistic, cinematic quality"

/-- ai_extender.py line 120: the edge region whose pixel sum fingerprints
the frame (last 20 rows for a bottom request, first 20 for a top one). -/
def edgeRegion (img : Img) (side : Side) (width : Nat) : Img :=
  if side = Side.bottom then
    cropImg img 0 (max 0 ((img.height : Int) - 20)) width img.height
  else
    cropImg img 0 0 width (min 20 (img.height : Int))

/-- The cache key of one extension request (lines 120 to 122). -/
def genKey (img : Img) (side : Side) (width : Nat) (extH : Int) : CacheKey :=
  ⟨side, width, extH, sumImg (edgeRegion img side width)⟩

/-- ai_extender.py lines 186 and 190:
Image.open(io.BytesIO(response.content)).  The io module is imported
only as a LOCAL name inside _pil_to_bytes (line 230) and never at
module level, so this expression raises NameError on both response
shapes, for every response: the decode of a downloaded image never
returns. -/
def decodeDownloadedImage (_response : Img) : Option Img := none

/-- ai_extender.py _stable_diffusion_outpaint (lines 157 to 197): the
network call and download (the netGen collaborator), then the local
decode of lines 182 to 192, then the exact resize of line 195.  The
no-response branch raises at line 192; a response reaches the decode,
which always raises NameError (see decodeDownloadedImage); so the resize
on the decoded image is dead code, transcribed for fidelity, and this
function returns none on every path: the whole generation call always
lands in the broad except handler of the caller. -/
def stableDiffusionOutpaint (ctx : Ctx) (img : Img) (side : Side)
    (width : Nat) (extH : Int) : Option Img :=
  match ctx.netGen img (promptFromImage img side) with
  | some response =>
    match decodeDownloadedImage response with
    | some gen => some (resizeImg width extH.toNat gen)
    | none => none
  | none => none

/-- ai_extender.py _generate_ai_extension (lines 103 to 155).  The third
component counts the generation backend invocations of this call.  A
raised exception inside the try block (the always-raising outpaint, or
the no-token branch falling back) lands in the broad except handler,
which calls the fallback, so both paths return exactly the fallback
result; a fallback that itself raises propagates, modelled by the
fallback Option.  The cache insertion and eviction of lines 140 to 150
are transcribed in the success arm, which is unreachable because the
outpaint never returns normally (stableDiffusionOutpaint is none on
every path). -/
def generateAIExtension (ctx : Ctx) (st : ExtState) (img : Img) (side : Side)
    (width : Nat) (extH : Int) : Option Img × ExtState × Nat :=
  if extH ≤ 0 ∨ width = 0 then
    (some (Img.new width (max 1 extH).toNat (0, 0, 0)), st, 0)
  else
    let key := genKey img side width extH
    match findEntry st.cache key with
    | some cached => (some cached, { st with hits := st.hits + 1 }, 0)
    | none =>
      let st1 := { st with misses := st.misses + 1 }
      if ctx.apiToken then
        match stableDiffusionOutpaint ctx img side width extH with
        | some ext => (some ext, { st1 with cache := cachePut st1.cache key ext }, 1)
        | none => (fallbackExtension ctx img side width extH, st1, 1)
      else (fallbackExtension ctx img side width extH, st1, 0)

/-!
The per-frame entry point, ai_extender.py lines 18 to 54.
-/

/-- ai_extender.py line 32: int(width * 16 / 9).  The float division is
exact to well below one part in a billion for any realistic width, so the
int() truncation is the integer floor division. -/
def targetHeight (w : Nat) : Nat := w * 16 / 9

/-- Line 35: total vertical space to add (negative when the source is
already taller than 9 by 16). -/
def extTotal (w h : Nat) : Int := (targetHeight w : Int) - h

/-- Line 36: top_extension = total_extension // 2 (Python floor
division). -/
def extTop (w h : Nat) : Int := (extTotal w h).fdiv 2

/-- Line 37: bottom_extension = total_extension - top_extension. -/
def extBot (w h : Nat) : Int := extTotal w h - extTop w h

/-- ai_extender.py analyze_frame_and_extend: black 9 by 16 canvas, source
pasted at the top-extension offset, then the top and bottom extensions
generated and pasted (lines 40 to 54), threading the cache state and
summing the backend invocation counts. -/
def analyzeFrameAndExtend (ctx : Ctx) (st : ExtState) (img : Img) :
    Option (Img × ExtState × Nat) :=
  let W := img.width
  let H := img.height
  let canvas := Img.new W (targetHeight W) (0, 0, 0)
  let base := pasteImg canvas img 0 (extTop W H)
  match generateAIExtension ctx st img Side.top W (extTop W H) with
  | (none, _, _) => none
  | (some topExt, st1, n1) =>
    match generateAIExtension ctx st1 img Side.bottom W (extBot W H) with
    | (none, _, _) => none
    | (some botExt, st2, n2) =>
      some (pasteImg (pasteImg base topExt 0 0) botExt 0 (extTop W H + H), st2, n1 + n2)

/-!
The two processing modes, video_processing.py.
-/

/-- The frame loop of VideoProcessor.process_video (lines 46 to 63):
frames on the sampling boundary are fully extended, the others duplicate
the last processed frame; when nothing has been processed yet the else
branch appends nothing.  Frames stand for the files the source writes. -/
def processVideoGo (ctx : Ctx) (sampleRate : Nat) :
    ExtState → Nat → List Img → List Img → Option (List Img × ExtState)
  | st, _, acc, [] => some (acc, st)
  | st, i, acc, f :: rest =>
    if i % sampleRate = 0 then
      match analyzeFrameAndExtend ctx st (swapRB f) with
      | none => none
      | some (ext, st1, _) => processVideoGo ctx sampleRate st1 (i + 1) (acc ++ [ext]) rest
    else
      match acc.getLast? with
      | some lastF => processVideoGo ctx sampleRate st (i + 1) (acc ++ [lastF]) rest
      | none => processVideoGo ctx sampleRate st (i + 1) acc rest

/-- video_processing.py process_video, restricted to the in-scope frame
pipeline: decoded frames in, ordered extended frames out.  A sample rate
of zero raises ZeroDivisionError at frame 0 in the source. -/
def processVideo (ctx : Ctx) (st : ExtState) (frames : List Img)
    (sampleRate : Nat) : Option (List Img × ExtState) :=
  if sampleRate = 0 then none else processVideoGo ctx sampleRate st 0 [] frames

/-- range(0, total, interval) for a positive interval: the multiples of
the interval below total, in increasing order. -/
def keyframeIndices (total interval : Nat) : List Nat :=
  (List.range total).filter (fun j => j % interval = 0)

/-- The first pass of process_video_keyframes (lines 155 to 167): extend
each keyframe in index order, threading the extender state, recording the
results keyed by frame index (the BGR to RGB conversion and back are the
channel swaps). -/
def firstPassGo (ctx : Ctx) (frames : List Img) :
    ExtState → List Nat → Option (List (Nat × Img) × ExtState)
  | st, [] => some ([], st)
  | st, j :: rest =>
    match frames.get? j with
    | none => none
    | some f =>
      match analyzeFrameAndExtend ctx st (swapRB f) with
      | none => none
      | some (ext, st1, _) =>
        match firstPassGo ctx frames st1 rest with
        | none => none
        | some (m, st2) => some ((j, swapRB ext) :: m, st2)

/-- The keyframe map of one run.  A zero interval raises ValueError in
range(0, total, 0). -/
def firstPassKeyframes (ctx : Ctx) (st : ExtState) (frames : List Img)
    (interval : Nat) : Option (List (Nat × Img) × ExtState) :=
  if interval = 0 then none
  else firstPassGo ctx frames st (keyframeIndices frames.length interval)

/-- Keyframe map lookup (Python dict indexed by frame number). -/
def kfLookup : List (Nat × Img) → Nat → Option Img
  | [], _ => none
  | e :: l, k => if e.1 = k then some e.2 else kfLookup l k

/-- Line 177: prev_keyframe_idx = (frame_idx // keyframe_interval) *
keyframe_interval. -/
def prevKf (interval i : Nat) : Nat := i / interval * interval

/-- Lines 178 to 182: next_keyframe_idx = prev + interval, clamped back
to prev when it reaches past the end of the video. -/
def nextKf (total interval i : Nat) : Nat :=
  if total ≤ prevKf interval i + interval then prevKf interval i
  else prevKf interval i + interval

/-- Lines 189 to 192: the interpolation factor
(frame_idx - prev) / (next - prev), and 0 when next = prev.  The Python
float quotient is modelled by the exact rational. -/
def blendT (total interval i : Nat) : ℚ :=
  if prevKf interval i < nextKf total interval i then
    ((i : ℚ) - (prevKf interval i : ℚ)) /
      ((nextKf total interval i : ℚ) - (prevKf interval i : ℚ))
  else 0

/-- One iteration of the second pass (lines 172 to 200): keyframes are
written as stored; other frames locate their neighbour keyframes, clamp
the next one at the end of the video, and blend with
cv2.addWeighted(prev, 1 - t, next, t, 0); if a neighbour is missing the
nearest existing keyframe is written, and a lookup of a missing key
raises KeyError (none). -/
def writeFrame (m : List (Nat × Img)) (total interval i : Nat) : Option Img :=
  match kfLookup m i with
  | some kf => some kf
  | none =>
    match kfLookup m (prevKf interval i), kfLookup m (nextKf total interval i) with
    | some P, some N =>
      some (addWeighted P (1 - blendT total interval i) N (blendT total interval i))
    | _, _ =>
      let nearest := if (kfLookup m (prevKf interval i)).isSome then prevKf interval i
                     else nextKf total interval i
      kfLookup m nearest

/-- The second pass over a list of frame indices, collecting the written
frames in order and propagating a raise. -/
def secondPassGo (m : List (Nat × Img)) (total interval : Nat) :
    List Nat → Option (List Img)
  | [] => some []
  | i :: rest =>
    match writeFrame m total interval i, secondPassGo m total interval rest with
    | some f, some out => some (f :: out)
    | _, _ => none

/-- The full second pass: one written frame per index in [0, total). -/
def secondPass (m : List (Nat × Img)) (total interval : Nat) : Option (List Img) :=
  secondPassGo m total interval (List.range total)

/-- video_processing.py process_video_keyframes, restricted to the
in-scope frame pipeline: the keyframe first pass followed by the
write-and-interpolate second pass. -/
def processVideoKeyframes (ctx : Ctx) (st : ExtState) (frames : List Img)
    (interval : Nat) : Option (List Img × ExtState) :=
  match firstPassKeyframes ctx st frames interval with
  | none => none
  | some (m, st1) =>
    match secondPass m frames.length interval with
    | none => none
    | some out => some (out, st1)

/-- One extension request, as issued to _generate_ai_extension. -/
structure ExtRequest where
  img : Img
  side : Side
  width : Nat
  extH : Int

/-- A run of extension requests against one extender instance, observing
only the final state (each request updates the state before any raise
propagates, matching where the source mutates the counters). -/
def runRequests (ctx : Ctx) : ExtState → List ExtRequest → ExtState
  | st, [] => st
  | st, r :: rest =>
    runRequests ctx (generateAIExtension ctx st r.img r.side r.width r.extH).2.1 rest

/-- A request counts toward the miss counter exactly when it passes the
degenerate-geometry guard of line 116. -/
def posDims (r : ExtRequest) : Bool :=
  if r.extH ≤ 0 ∨ r.width = 0 then false else true

/-- The rounding the spec asks for in round(W times 16 / 9), written from
the spec, not the source: round half up (the fraction of 16 W / 9 is
never one half, so every rounding convention agrees here). -/
def specRoundTargetHeight (w : Nat) : Nat := (2 * (w * 16) + 9) / (2 * 9)

/-!
Geometry facts about the image primitives.
-/

theorem pasteImg_width (base over : Img) (x0 y0 : Int) :
    (pasteImg base over x0 y0).width = base.width := rfl

theorem pasteImg_height (base over : Img) (x0 y0 : Int) :
    (pasteImg base over x0 y0).height = base.height := rfl

theorem pasteMasked_width (base over : Img) (a : Nat → Nat → ℚ) (x0 y0 : Int) :
    (pasteMasked base over a x0 y0).width = base.width := rfl

theorem pasteMasked_height (base over : Img) (a : Nat → Nat → ℚ) (x0 y0 : Int) :
    (pasteMasked base over a x0 y0).height = base.height := rfl

theorem cropImg_width (img : Img) (l t r b : Int) :
    (cropImg img l t r b).width = (r - l).toNat := rfl

theorem cropImg_height (img : Img) (l t r b : Int) :
    (cropImg img l t r b).height = (b - t).toNat := rfl

theorem flipTB_width (img : Img) : (flipTB img).width = img.width := rfl

theorem flipTB_height (img : Img) : (flipTB img).height = img.height := rfl

/-!
Claim C5: batch eviction of the ten oldest entries.
-/

/-- Inserting a fresh key appends it at the end of the insertion order. -/
theorem dictInsert_fresh (l : List (CacheKey × Img)) (k : CacheKey) (v : Img)
    (hfresh : (findEntry l k).isNone = true) :
    dictInsert l k v = l ++ [(k, v)] := by
  unfold dictInsert
  rw [Option.isNone_iff_eq_none] at hfresh
  simp [hfresh]

/-- Claim C5 (confirmed).  A put that lifts the entry count above 50
removes exactly the 10 oldest-inserted entries: the resulting cache is
the old one minus its first 10 entries, with the new entry appended, so
an eviction triggered at 51 entries leaves exactly 41 = 50 + 1 - 10. -/
theorem c5_eviction_drops_ten_oldest (l : List (CacheKey × Img)) (k : CacheKey)
    (v : Img) (hfresh : (findEntry l k).isNone = true) (h50 : 50 ≤ l.length) :
    cachePut l k v = l.drop 10 ++ [(k, v)] ∧
    (cachePut l k v).length = l.length + 1 - 10 := by
  have hins : dictInsert l k v = l ++ [(k, v)] := dictInsert_fresh l k v hfresh
  have hlen : (l ++ [(k, v)]).length = l.length + 1 := by simp
  have hgt : 50 < (l ++ [(k, v)]).length := by omega
  have hdrop : (l ++ [(k, v)]).drop 10 = l.drop 10 ++ [(k, v)] :=
    List.drop_append_of_le_length (by omega)
  constructor
  · rw [cachePut, hins, cacheEvict, if_pos hgt, hdrop]
  · rw [cachePut, hins, cacheEvict, if_pos hgt, hdrop]
    simp
    omega

/-- A concrete 50-entry cache for the eviction witness. -/
def cacheFifty : List (CacheKey × Img) :=
  (List.range 50).map (fun i => (⟨Side.top, i, 1, 0⟩, Img.new 1 1 (0, 0, 0)))

/-- Witness for C5: on a concrete cache of exactly 50 entries, a put of a
fresh key evicts the first 10 and leaves 41 entries. -/
theorem c5_eviction_witness :
    cachePut cacheFifty ⟨Side.top, 999, 1, 0⟩ (Img.new 1 1 (0, 0, 0)) =
      cacheFifty.drop 10 ++ [(⟨Side.top, 999, 1, 0⟩, Img.new 1 1 (0, 0, 0))] ∧
    (cachePut cacheFifty ⟨Side.top, 999, 1, 0⟩ (Img.new 1 1 (0, 0, 0))).length =
      cacheFifty.length + 1 - 10 :=
  c5_eviction_drops_ten_oldest cacheFifty ⟨Side.top, 999, 1, 0⟩
    (Img.new 1 1 (0, 0, 0)) (by decide) (by decide)

/-!
Equational descriptions of the five paths through _generate_ai_extension.
-/

/-- Line 116: a degenerate request returns a 1-pixel-minimum black strip
without touching the cache, the counters, or the backend. -/
theorem genExt_degenerate (ctx : Ctx) (st : ExtState) (img : Img) (side : Side)
    (width : Nat) (extH : Int) (h : extH ≤ 0 ∨ width = 0) :
    generateAIExtension ctx st img side width extH =
      (some (Img.new width (max 1 extH).toNat (0, 0, 0)), st, 0) := by
  simp [generateAIExtension, h]

/-- Lines 124 to 127: a cache hit is served from the cache, bumping the
hit counter, with no generation. -/
theorem genExt_hit (ctx : Ctx) (st : ExtState) (img : Img) (side : Side)
    (width : Nat) (extH : Int) (e : Img) (hguard : ¬(extH ≤ 0 ∨ width = 0))
    (he : findEntry st.cache (genKey img side width extH) = some e) :
    generateAIExtension ctx st img side width extH =
      (some e, { st with hits := st.hits + 1 }, 0) := by
  simp only [generateAIExtension, if_neg hguard, he]

/-- Lines 132 to 134: a miss with no api token goes to the fallback,
bumping the miss counter, never invoking the backend. -/
theorem genExt_miss_noToken (ctx : Ctx) (st : ExtState) (img : Img) (side : Side)
    (width : Nat) (extH : Int) (hguard : ¬(extH ≤ 0 ∨ width = 0))
    (hmiss : findEntry st.cache (genKey img side width extH) = none)
    (htok : ctx.apiToken = false) :
    generateAIExtension ctx st img side width extH =
      (fallbackExtension ctx img side width extH,
       { st with misses := st.misses + 1 }, 0) := by
  simp only [generateAIExtension, if_neg hguard, hmiss, htok, Bool.false_eq_true,
    if_false]

/-- The outpaint raises on every path: the response-carrying branches
die in the NameError decode (lines 186 and 190), the remaining branches
raise at the call or at line 192. -/
theorem stableDiffusionOutpaint_eq_none (ctx : Ctx) (img : Img) (side : Side)
    (width : Nat) (extH : Int) :
    stableDiffusionOutpaint ctx img side width extH = none := by
  unfold stableDiffusionOutpaint
  cases ctx.netGen img (promptFromImage img side) <;> rfl

/-- Lines 136 to 155: a miss with a token invokes the backend exactly
once; the generation call never returns normally (NameError in the
response decode, see stableDiffusionOutpaint_eq_none), so the broad
except handler always runs and the request returns the fallback, with
nothing cached. -/
theorem genExt_miss_token (ctx : Ctx) (st : ExtState) (img : Img) (side : Side)
    (width : Nat) (extH : Int) (hguard : ¬(extH ≤ 0 ∨ width = 0))
    (hmiss : findEntry st.cache (genKey img side width extH) = none)
    (htok : ctx.apiToken = true) :
    generateAIExtension ctx st img side width extH =
      (fallbackExtension ctx img side width extH,
       { st with misses := st.misses + 1 }, 1) := by
  simp only [generateAIExtension, if_neg hguard, hmiss, htok, if_true,
    stableDiffusionOutpaint_eq_none]

/-!
Lookup lemmas for the insertion-ordered cache.
-/

theorem findEntry_eq_none_iff (l : List (CacheKey × Img)) (k : CacheKey) :
    findEntry l k = none ↔ ∀ e ∈ l, e.1 ≠ k := by
  induction l with
  | nil => simp [findEntry]
  | cons e l ih =>
    by_cases he : e.1 = k
    · simp [findEntry, he]
    · simp [findEntry, he, ih]

theorem findEntry_append_of_none (l1 l2 : List (CacheKey × Img)) (k : CacheKey)
    (h : findEntry l1 k = none) :
    findEntry (l1 ++ l2) k = findEntry l2 k := by
  induction l1 with
  | nil => simp
  | cons e l ih =>
    by_cases he : e.1 = k
    · rw [findEntry, if_pos he] at h; exact absurd h (by simp)
    · rw [findEntry, if_neg he] at h
      rw [List.cons_append, findEntry, if_neg he]
      exact ih h

theorem findEntry_drop_of_none (l : List (CacheKey × Img)) (k : CacheKey)
    (n : Nat) (h : findEntry l k = none) : findEntry (l.drop n) k = none := by
  rw [findEntry_eq_none_iff] at h ⊢
  exact fun e he => h e (List.drop_subset n l he)

/-- A fresh insertion is found back even after the eviction check: the
new entry is appended last and the eviction removes only the first 10. -/
theorem findEntry_cachePut_self (l : List (CacheKey × Img)) (k : CacheKey)
    (v : Img) (hfresh : findEntry l k = none) :
    findEntry (cachePut l k v) k = some v := by
  have hself : findEntry [(k, v)] k = some v := by simp [findEntry]
  rw [cachePut, dictInsert_fresh l k v (by simp [hfresh]), cacheEvict]
  by_cases hlen : 50 < (l ++ [(k, v)]).length
  · rw [if_pos hlen]
    have hd : (l ++ [(k, v)]).drop 10 = l.drop 10 ++ [(k, v)] :=
      List.drop_append_of_le_length (by simp at hlen; omega)
    rw [hd, findEntry_append_of_none _ _ _ (findEntry_drop_of_none l k 10 hfresh)]
    exact hself
  · rw [if_neg hlen, findEntry_append_of_none _ _ _ hfresh]
    exact hself

/-!
Claim C2: cache idempotence of identical extension requests.
-/

/-- Claim C2 (code_bug).  The claim states the evident intent of the
cache machinery (insert on first generation, serve the second identical
request from the cache), but the generation success path is dead code:
the io module is imported only as a local name inside _pil_to_bytes, so
the response decode at lines 186 and 190 raises NameError and
_stable_diffusion_outpaint never returns normally; the insertion at
lines 140 to 150 is unreachable.  What the program actually does, proved
here: with a token configured, two requests with the identical cache key
(the second may come from a different frame with an equal edge sum) BOTH
miss, each invokes the generation backend once (two invocations in
total), both are served by the procedural fallback, nothing is ever
inserted into the cache, and the hit counter never moves. -/
theorem c2_second_request_generates_again (ctx : Ctx) (st : ExtState)
    (img img2 : Img) (side : Side) (width : Nat) (extH : Int)
    (htok : ctx.apiToken = true) (hw : width ≠ 0) (hh : 1 ≤ extH)
    (hkey : genKey img2 side width extH = genKey img side width extH)
    (hfresh : (findEntry st.cache (genKey img side width extH)).isNone = true) :
    stableDiffusionOutpaint ctx img side width extH = none ∧
    ∃ st1 st2,
      generateAIExtension ctx st img side width extH =
        (fallbackExtension ctx img side width extH, st1, 1) ∧
      generateAIExtension ctx st1 img2 side width extH =
        (fallbackExtension ctx img2 side width extH, st2, 1) ∧
      st1.cache = st.cache ∧ st2.cache = st.cache ∧
      st1.hits = st.hits ∧ st2.hits = st.hits ∧
      st2.misses = st.misses + 2 := by
  have hguard : ¬(extH ≤ 0 ∨ width = 0) := by
    push_neg
    exact ⟨by omega, hw⟩
  rw [Option.isNone_iff_eq_none] at hfresh
  set st1 : ExtState := { st with misses := st.misses + 1 } with hst1
  have hfresh2 : findEntry st1.cache (genKey img2 side width extH) = none := by
    rw [hkey]
    exact hfresh
  refine ⟨stableDiffusionOutpaint_eq_none ctx img side width extH,
    st1, { st1 with misses := st1.misses + 1 }, ?_, ?_, rfl, rfl, rfl, rfl, rfl⟩
  · exact genExt_miss_token ctx st img side width extH hguard hfresh htok
  · exact genExt_miss_token ctx st1 img2 side width extH hguard hfresh2 htok

/-- A tiny concrete source frame for witnesses: constant gray, 9 by 4. -/
def frameA : Img := Img.new 9 4 (5, 5, 5)

/-- A context with a token whose network backend always delivers a
response: the run still dies in the local NameError decode. -/
def ctxStub : Ctx := ⟨true, id, fun _ _ => some (Img.new 3 3 (7, 7, 7))⟩

/-- Witness for C2 at a concrete pair of identical requests against the
response-delivering stub backend, from the empty cache: the outpaint
still returns nothing, both requests generate, nothing is cached. -/
theorem c2_second_request_generates_again_witness :
    stableDiffusionOutpaint ctxStub frameA Side.top 9 6 = none ∧
    ∃ st1 st2,
      generateAIExtension ctxStub initState frameA Side.top 9 6 =
        (fallbackExtension ctxStub frameA Side.top 9 6, st1, 1) ∧
      generateAIExtension ctxStub st1 frameA Side.top 9 6 =
        (fallbackExtension ctxStub frameA Side.top 9 6, st2, 1) ∧
      st1.cache = initState.cache ∧ st2.cache = initState.cache ∧
      st1.hits = initState.hits ∧ st2.hits = initState.hits ∧
      st2.misses = initState.misses + 2 :=
  c2_second_request_generates_again ctxStub initState frameA frameA Side.top 9 6
    rfl (by decide) (by decide) rfl (by decide)

/-!
Claim C10: without an api token the cache is never populated.
-/

/-- In a token-less run starting from an empty cache, every request
leaves the cache empty and the hit counter untouched, and bumps the miss
counter exactly on the non-degenerate requests. -/
theorem runRequests_noToken (ctx : Ctx) (htok : ctx.apiToken = false) :
    ∀ (reqs : List ExtRequest) (st : ExtState), st.cache = [] →
      (runRequests ctx st reqs).cache = [] ∧
      (runRequests ctx st reqs).hits = st.hits ∧
      (runRequests ctx st reqs).misses = st.misses + (reqs.filter posDims).length := by
  intro reqs
  induction reqs with
  | nil => intro st h; simp [runRequests, h]
  | cons r rest ih =>
    intro st hcache
    rw [runRequests]
    by_cases hg : r.extH ≤ 0 ∨ r.width = 0
    · rw [genExt_degenerate ctx st r.img r.side r.width r.extH hg]
      obtain ⟨h1, h2, h3⟩ := ih st hcache
      refine ⟨h1, h2, ?_⟩
      rw [h3]
      simp [List.filter_cons, posDims, hg]
    · have hmiss : findEntry st.cache (genKey r.img r.side r.width r.extH) = none := by
        rw [hcache]; rfl
      rw [genExt_miss_noToken ctx st r.img r.side r.width r.extH hg hmiss htok]
      obtain ⟨h1, h2, h3⟩ := ih { st with misses := st.misses + 1 } hcache
      refine ⟨h1, h2, ?_⟩
      rw [h3]
      simp [List.filter_cons, posDims, hg]
      omega

/-- Claim C10 (confirmed).  When no api token is configured, fallback
results are never inserted into the extension cache: over any sequence of
extension requests the cache stays empty, the hit counter stays 0, and
every request with positive dimensions counts as a cache miss. -/
theorem c10_no_token_never_caches (ctx : Ctx) (htok : ctx.apiToken = false)
    (reqs : List ExtRequest) :
    (runRequests ctx initState reqs).cache = [] ∧
    (runRequests ctx initState reqs).hits = 0 ∧
    (runRequests ctx initState reqs).misses = (reqs.filter posDims).length := by
  simpa [initState] using runRequests_noToken ctx htok reqs initState rfl

/-- A token-less context whose backend would fail anyway. -/
def ctxNoToken : Ctx := ⟨false, id, fun _ _ => none⟩

/-- Witness for C10 on a concrete token-less run of three requests (two
positive, one degenerate). -/
theorem c10_no_token_never_caches_witness :
    (runRequests ctxNoToken initState
        [⟨frameA, Side.top, 9, 6⟩, ⟨frameA, Side.top, 9, 0⟩,
         ⟨frameA, Side.bottom, 9, 7⟩]).cache = [] ∧
    (runRequests ctxNoToken initState
        [⟨frameA, Side.top, 9, 6⟩, ⟨frameA, Side.top, 9, 0⟩,
         ⟨frameA, Side.bottom, 9, 7⟩]).hits = 0 ∧
    (runRequests ctxNoToken initState
        [⟨frameA, Side.top, 9, 6⟩, ⟨frameA, Side.top, 9, 0⟩,
         ⟨frameA, Side.bottom, 9, 7⟩]).misses =
      ([⟨frameA, Side.top, 9, 6⟩, ⟨frameA, Side.top, 9, 0⟩,
        (⟨frameA, Side.bottom, 9, 7⟩ : ExtRequest)].filter posDims).length :=
  c10_no_token_never_caches ctxNoToken rfl _

/-!
Claim C7: geometry and totality of the procedural fallback generator.
-/

/-- Whenever the fallback returns at all, its result has exactly the
requested geometry (the extension canvas is allocated at that size and
the masked pastes preserve it). -/
theorem fallbackExtension_dims (ctx : Ctx) (img : Img) (side : Side)
    (width : Nat) (extH : Int) (r : Img)
    (h : fallbackExtension ctx img side width extH = some r) :
    r.width = width ∧ r.height = extH.toNat := by
  simp only [fallbackExtension] at h
  split_ifs at h <;> (injection h with h; subst h; exact ⟨rfl, rfl⟩)

/-- The blur primitive preserves image geometry (the PIL filter
contract). -/
def blurPreservesDims (ctx : Ctx) : Prop :=
  ∀ i : Img, (ctx.blur i).width = i.width ∧ (ctx.blur i).height = i.height

/-- On a source frame of height at least 3 the fallback always succeeds,
with exactly the requested geometry. -/
theorem fallbackExtension_total (ctx : Ctx) (img : Img) (side : Side)
    (width : Nat) (extH : Int) (hblur : blurPreservesDims ctx)
    (hw : width ≠ 0) (hh : 1 ≤ extH) (hsrc : 3 ≤ img.height) :
    ∃ r, fallbackExtension ctx img side width extH = some r ∧
      r.width = width ∧ r.height = extH.toNat := by
  have hIntDiv : ((img.height / 3 : Nat) : Int) = (img.height : Int) / 3 := by
    exact_mod_cast Int.ofNat_ediv img.height 3
  have heh1 : (1 : Int) ≤ min (2 * extH) ((img.height : Int) / 3) := by
    have h3 : (1 : Int) ≤ (img.height : Int) / 3 := by
      rw [← hIntDiv]
      have : 1 ≤ img.height / 3 := (Nat.one_le_div_iff (by omega)).2 hsrc
      exact_mod_cast this
    exact le_min (by omega) h3
  simp only [fallbackExtension]
  set eh : Int := min (2 * extH) ((img.height : Int) / 3) with heh_def
  have hedgeW :
      (if side = Side.bottom then
          cropImg img 0 ((img.height : Int) - eh) width img.height
        else cropImg img 0 0 width eh).width = width := by
    split_ifs <;> (rw [cropImg_width]; omega)
  have hedgeH :
      (if side = Side.bottom then
          cropImg img 0 ((img.height : Int) - eh) width img.height
        else cropImg img 0 0 width eh).height = eh.toNat := by
    split_ifs <;> (rw [cropImg_height]; omega)
  have hgw := (hblur (flipTB (if side = Side.bottom then
      cropImg img 0 ((img.height : Int) - eh) width img.height
    else cropImg img 0 0 width eh))).1
  have hgh := (hblur (flipTB (if side = Side.bottom then
      cropImg img 0 ((img.height : Int) - eh) width img.height
    else cropImg img 0 0 width eh))).2
  rw [flipTB_width, hedgeW] at hgw
  rw [flipTB_height, hedgeH] at hgh
  rw [if_pos ⟨hgw, hgh⟩, if_neg (by push_neg; exact ⟨hw, by omega⟩)]
  by_cases hlt : eh < extH
  · rw [if_pos hlt]
    exact ⟨_, rfl, rfl, rfl⟩
  · rw [if_neg hlt]
    exact ⟨_, rfl, rfl, rfl⟩

/-- Claim C7 (corrected).  For every source frame of height at least 3
(so the reflected edge strip is nonempty), every position and every
positive requested width and height, the procedural fallback succeeds
and returns a frame of exactly the requested width times height.  For
shorter source frames the strip is empty and the generator raises
instead of returning (see the counterexample). -/
theorem c7_fallback_total_exact_dims (ctx : Ctx) (img : Img) (side : Side)
    (width : Nat) (extH : Int) (hblur : blurPreservesDims ctx)
    (hw : width ≠ 0) (hh : 1 ≤ extH) (hsrc : 3 ≤ img.height) :
    ∃ r, fallbackExtension ctx img side width extH = some r ∧
      r.width = width ∧ r.height = extH.toNat :=
  fallbackExtension_total ctx img side width extH hblur hw hh hsrc

/-- Witness for C7: a concrete 9 by 4 frame, a 9 by 6 bottom request. -/
theorem c7_fallback_total_exact_dims_witness :
    ∃ r, fallbackExtension ctxNoToken frameA Side.bottom 9 6 = some r ∧
      r.width = 9 ∧ r.height = (6 : Int).toNat :=
  c7_fallback_total_exact_dims ctxNoToken frameA Side.bottom 9 6
    (fun _ => ⟨rfl, rfl⟩) (by decide) (by decide) (by decide)

/-- Counterexample to C7 as stated: on a 5 by 2 source frame (positive
requested width 5 and height 3) the edge strip height is
min(2 times 3, 2 // 3) = 0, the strip is empty, and the fallback raises
(ValueError from int(NaN) at the mean-colour step) instead of returning
a frame: the generator does not never fail. -/
theorem c7_fallback_crashes_on_short_frame :
    (fallbackExtension ctxNoToken (Img.new 5 2 (1, 1, 1)) Side.bottom 5 3).isNone
      = true := by decide

/-!
Cache well-formedness: stored extensions match their key geometry.
-/

theorem cacheWF_find (l : List (CacheKey × Img)) (k : CacheKey) (e : Img)
    (hwf : cacheWF l = true) (h : findEntry l k = some e) :
    e.width = k.width ∧ e.height = k.extH.toNat := by
  induction l with
  | nil => simp [findEntry] at h
  | cons p l ih =>
    rw [cacheWF, List.all_cons, Bool.and_eq_true] at hwf
    rw [findEntry] at h
    split_ifs at h with hp
    · injection h with h
      subst h
      have hpred := hwf.1
      rw [Bool.and_eq_true, beq_iff_eq, beq_iff_eq] at hpred
      rw [hp] at hpred
      exact hpred
    · exact ih hwf.2 h

theorem cacheWF_cachePut (l : List (CacheKey × Img)) (k : CacheKey) (v : Img)
    (hwf : cacheWF l = true)
    (hv : v.width = k.width ∧ v.height = k.extH.toNat) :
    cacheWF (cachePut l k v) = true := by
  have hins : cacheWF (dictInsert l k v) = true := by
    rw [dictInsert]
    split_ifs
    · rw [cacheWF, List.all_eq_true]
      intro e he
      rw [List.mem_map] at he
      obtain ⟨p, hp, rfl⟩ := he
      split_ifs with hpk
      · simp [hv.1, hv.2]
      · exact List.all_eq_true.1 hwf p hp
    · rw [cacheWF, List.all_append, Bool.and_eq_true]
      exact ⟨hwf, by simp [cacheWF, hv.1, hv.2]⟩
  rw [cachePut, cacheEvict]
  split_ifs
  · rw [cacheWF, List.all_eq_true]
    intro e he
    exact List.all_eq_true.1 hins e (List.drop_subset _ _ he)
  · exact hins

/-!
Geometry and state facts about one generation step.
-/

/-- Every path through _generate_ai_extension preserves the cache
well-formedness invariant: the only insertion stores the resize of the
generated image at exactly the key geometry. -/
theorem genExt_wf (ctx : Ctx) (st : ExtState) (img : Img) (side : Side)
    (width : Nat) (extH : Int) (hwf : cacheWF st.cache = true) :
    cacheWF (generateAIExtension ctx st img side width extH).2.1.cache = true := by
  by_cases hg : extH ≤ 0 ∨ width = 0
  · rw [genExt_degenerate ctx st img side width extH hg]
    exact hwf
  · cases hfind : findEntry st.cache (genKey img side width extH) with
    | some e =>
      rw [genExt_hit ctx st img side width extH e hg hfind]
      exact hwf
    | none =>
      cases htok : ctx.apiToken with
      | false =>
        rw [genExt_miss_noToken ctx st img side width extH hg hfind htok]
        exact hwf
      | true =>
        rw [genExt_miss_token ctx st img side width extH hg hfind htok]
        exact hwf

/-- When a generation step returns an extension at all and the requested
height is positive, the extension has exactly the requested geometry
(whatever path produced it, given a well-formed cache). -/
theorem genExt_dims (ctx : Ctx) (st : ExtState) (img : Img) (side : Side)
    (width : Nat) (extH : Int) (r : Img) (st2 : ExtState) (n : Nat)
    (h : generateAIExtension ctx st img side width extH = (some r, st2, n))
    (hwf : cacheWF st.cache = true) (hh : 1 ≤ extH) :
    r.width = width ∧ r.height = extH.toNat := by
  by_cases hg : extH ≤ 0 ∨ width = 0
  · rw [genExt_degenerate ctx st img side width extH hg] at h
    simp only [Prod.mk.injEq, Option.some.injEq] at h
    obtain ⟨rfl, -, -⟩ := h
    refine ⟨rfl, ?_⟩
    show (max 1 extH).toNat = extH.toNat
    rw [max_eq_right hh]
  · cases hfind : findEntry st.cache (genKey img side width extH) with
    | some e =>
      rw [genExt_hit ctx st img side width extH e hg hfind] at h
      simp only [Prod.mk.injEq, Option.some.injEq] at h
      obtain ⟨rfl, -, -⟩ := h
      exact cacheWF_find st.cache _ e hwf hfind
    | none =>
      cases htok : ctx.apiToken with
      | false =>
        rw [genExt_miss_noToken ctx st img side width extH hg hfind htok] at h
        simp only [Prod.mk.injEq] at h
        exact fallbackExtension_dims ctx img side width extH r h.1
      | true =>
        rw [genExt_miss_token ctx st img side width extH hg hfind htok] at h
        simp only [Prod.mk.injEq] at h
        exact fallbackExtension_dims ctx img side width extH r h.1

/-!
Claim C1: geometry of the extended frame.
-/

/-- Claim C1 (corrected).  For a source frame of width W and height H
with H below the target height, the extended frame has width W and height
int(W times 16 / 9), which is the floor (not the round) of W times 16/9;
the top and bottom extension heights sum exactly to targetHeight - H and
differ by at most one, the odd remainder row going to the bottom
(top = floor(total/2), bottom = total - top); and whenever the top
extension is nonempty (total extension of at least 2) the source frame
content sits exactly at row offset top.  When the total extension is
exactly 1 the top extension is degenerate and its 1-pixel placeholder
strip overwrites the first source row, so the content clause needs the
guard (see the counterexample). -/
theorem c1_extended_frame_geometry (ctx : Ctx) (st : ExtState) (img : Img)
    (hwf : cacheWF st.cache = true)
    (hH : img.height < targetHeight img.width)
    (hs : (analyzeFrameAndExtend ctx st img).isSome = true) :
    ∃ res st2 n, analyzeFrameAndExtend ctx st img = some (res, st2, n) ∧
      res.width = img.width ∧
      res.height = targetHeight img.width ∧
      extTop img.width img.height + extBot img.width img.height =
        (targetHeight img.width : Int) - img.height ∧
      extTop img.width img.height ≤ extBot img.width img.height ∧
      extBot img.width img.height ≤ extTop img.width img.height + 1 ∧
      extTop img.width img.height =
        ((targetHeight img.width : Int) - img.height).fdiv 2 ∧
      (1 ≤ extTop img.width img.height →
        ∀ x, x < img.width → ∀ y, y < img.height →
          res.pix x ((extTop img.width img.height).toNat + y) = img.pix x y) := by
  have hediv : extTop img.width img.height = extTotal img.width img.height / 2 := by
    unfold extTop
    exact Int.fdiv_eq_ediv _ (by norm_num)
  have htotpos : 0 < extTotal img.width img.height := by
    unfold extTotal
    omega
  have htopnn : 0 ≤ extTop img.width img.height := by
    rw [hediv]
    omega
  cases hTop : generateAIExtension ctx st img Side.top img.width
      (extTop img.width img.height) with
  | mk otop snd =>
    obtain ⟨st1, n1⟩ := snd
    cases otop with
    | none =>
      simp only [analyzeFrameAndExtend, hTop, Option.isSome_none] at hs
      exact absurd hs (by decide)
    | some topI =>
      cases hBot : generateAIExtension ctx st1 img Side.bottom img.width
          (extBot img.width img.height) with
      | mk obot snd2 =>
        obtain ⟨st2, n2⟩ := snd2
        cases obot with
        | none =>
          simp only [analyzeFrameAndExtend, hTop, hBot, Option.isSome_none] at hs
          exact absurd hs (by decide)
        | some botI =>
          have hana : analyzeFrameAndExtend ctx st img =
              some (pasteImg (pasteImg (pasteImg
                    (Img.new img.width (targetHeight img.width) (0, 0, 0)) img 0
                    (extTop img.width img.height)) topI 0 0) botI 0
                  (extTop img.width img.height + img.height), st2, n1 + n2) := by
            simp only [analyzeFrameAndExtend, hTop, hBot]
          refine ⟨_, st2, n1 + n2, hana,
            rfl, rfl, by unfold extBot extTotal; ring, ?_, ?_, ?_, ?_⟩
          · unfold extBot
            rw [hediv]
            unfold extTotal at htotpos ⊢
            omega
          · unfold extBot
            rw [hediv]
            unfold extTotal at htotpos ⊢
            omega
          · rw [hediv, Int.fdiv_eq_ediv _ (by norm_num)]
            rfl
          · intro h1le x hx y hy
            have hTopDims := genExt_dims ctx st img Side.top img.width
              (extTop img.width img.height) topI st1 n1 hTop hwf h1le
            have hTopH := hTopDims.2
            dsimp only [pasteImg]
            split_ifs with hb ht hsc
            · exfalso
              omega
            · exfalso
              omega
            · have hx' : (((x : Nat) : Int) - 0).toNat = x := by omega
              have hy' : ((((extTop img.width img.height).toNat + y : Nat) : Int) -
                  extTop img.width img.height).toNat = y := by omega
              rw [hx', hy']
            · exfalso
              apply hsc
              refine ⟨by omega, by omega, by omega, by omega⟩

/-- Witness for C1: a concrete token-less run on the 9 by 4 gray frame
(target height 16, total extension 12, top 6, bottom 6). -/
theorem c1_extended_frame_geometry_witness :
    ∃ res st2 n, analyzeFrameAndExtend ctxNoToken initState frameA = some (res, st2, n) ∧
      res.width = frameA.width ∧
      res.height = targetHeight frameA.width ∧
      extTop frameA.width frameA.height + extBot frameA.width frameA.height =
        (targetHeight frameA.width : Int) - frameA.height ∧
      extTop frameA.width frameA.height ≤ extBot frameA.width frameA.height ∧
      extBot frameA.width frameA.height ≤ extTop frameA.width frameA.height + 1 ∧
      extTop frameA.width frameA.height =
        ((targetHeight frameA.width : Int) - frameA.height).fdiv 2 ∧
      (1 ≤ extTop frameA.width frameA.height →
        ∀ x, x < frameA.width → ∀ y, y < frameA.height →
          res.pix x ((extTop frameA.width frameA.height).toNat + y) = frameA.pix x y) :=
  c1_extended_frame_geometry ctxNoToken initState frameA (by decide) (by decide)
    (by decide)

/-- A 10 by 16 constant gray frame: its target height 17 = int(160/9)
disagrees with round(160/9) = 18, and its total extension is 1. -/
def frameB : Img := Img.new 10 16 (5, 5, 5)

/-- Counterexample to C1 as stated.  At width 10, height 16: the code
computes target height int(10 times 16 / 9) = 17 while the claim requires
round(10 times 16 / 9) = 18, so the produced height is not the rounded
value; moreover the total extension is 1, the top extension is 0, and the
degenerate 1-pixel top strip overwrites source row 0, so the source
content is not intact at row offset top = 0: the output pixel at (0, 0)
is black although the source pixel there is gray. -/
theorem c1_round_and_overwrite_cex :
    specRoundTargetHeight 10 = 18 ∧
    (analyzeFrameAndExtend ctxNoToken initState frameB).map (fun p => p.1.height) =
      some 17 ∧
    extTop 10 16 = 0 ∧
    (analyzeFrameAndExtend ctxNoToken initState frameB).map (fun p => p.1.pix 0 0) =
      some ((0 : ℚ), (0 : ℚ), (0 : ℚ)) ∧
    frameB.pix 0 0 = ((5 : ℚ), (5 : ℚ), (5 : ℚ)) :=
  ⟨by decide, by decide, by decide, by decide, by decide⟩

/-!
Claim C6: every backend failure is absorbed by the fallback.
-/

/-- A backend that fails for every request: either no credential is
configured, or every generation call raises or returns no image. -/
def backendFails (ctx : Ctx) : Prop :=
  ctx.apiToken = false ∨ ∀ i p, ctx.netGen i p = none

/-- With a failing backend, every generation step still returns an
extension (degenerate strip, cache hit, or fallback) provided the source
frame is at least 3 rows tall. -/
theorem genExt_total_fail (ctx : Ctx) (st : ExtState) (img : Img) (side : Side)
    (width : Nat) (extH : Int) (hblur : blurPreservesDims ctx)
    (_hfail : backendFails ctx) (hw : width ≠ 0) (hsrc : 3 ≤ img.height) :
    ∃ r st2 n, generateAIExtension ctx st img side width extH = (some r, st2, n) := by
  by_cases hg : extH ≤ 0 ∨ width = 0
  · exact ⟨_, _, _, genExt_degenerate ctx st img side width extH hg⟩
  · cases hfind : findEntry st.cache (genKey img side width extH) with
    | some e => exact ⟨e, _, _, genExt_hit ctx st img side width extH e hg hfind⟩
    | none =>
      have hh1 : 1 ≤ extH := by
        push_neg at hg
        omega
      obtain ⟨r, hr, -, -⟩ :=
        fallbackExtension_total ctx img side width extH hblur hw hh1 hsrc
      cases htok : ctx.apiToken with
      | false =>
        exact ⟨r, { st with misses := st.misses + 1 }, 0, by
          rw [genExt_miss_noToken ctx st img side width extH hg hfind htok, hr]⟩
      | true =>
        exact ⟨r, { st with misses := st.misses + 1 }, 1, by
          rw [genExt_miss_token ctx st img side width extH hg hfind htok, hr]⟩

/-- With a failing backend, the per-frame extension step always completes
on frames at least 3 rows tall, and the output has the 9 by 16 target
geometry of the source width. -/
theorem analyze_total_fail (ctx : Ctx) (st : ExtState) (img : Img)
    (hblur : blurPreservesDims ctx) (hfail : backendFails ctx)
    (hw : img.width ≠ 0) (hsrc : 3 ≤ img.height) :
    ∃ res st2 n, analyzeFrameAndExtend ctx st img = some (res, st2, n) ∧
      res.width = img.width ∧ res.height = targetHeight img.width := by
  obtain ⟨topI, st1, n1, hTop⟩ := genExt_total_fail ctx st img Side.top img.width
    (extTop img.width img.height) hblur hfail hw hsrc
  obtain ⟨botI, st2, n2, hBot⟩ := genExt_total_fail ctx st1 img Side.bottom img.width
    (extBot img.width img.height) hblur hfail hw hsrc
  refine ⟨pasteImg (pasteImg (pasteImg
      (Img.new img.width (targetHeight img.width) (0, 0, 0)) img 0
      (extTop img.width img.height)) topI 0 0) botI 0
      (extTop img.width img.height + img.height), st2, n1 + n2, ?_, rfl, rfl⟩
  simp only [analyzeFrameAndExtend, hTop, hBot]

theorem getLast?_mem : ∀ (l : List Img) (a : Img), l.getLast? = some a → a ∈ l := by
  intro l
  induction l with
  | nil => intro a h; simp [List.getLast?] at h
  | cons b l ih =>
    intro a h
    cases l with
    | nil =>
      simp [List.getLast?] at h
      simp [h]
    | cons c l2 =>
      rw [List.getLast?_cons_cons] at h
      exact List.mem_cons_of_mem b (ih a h)

theorem getLast?_isSome_of_ne_nil : ∀ (l : List Img), l ≠ [] → ∃ a, l.getLast? = some a := by
  intro l
  induction l with
  | nil => intro h; exact absurd rfl h
  | cons b l ih =>
    intro _
    cases l with
    | nil => exact ⟨b, rfl⟩
    | cons c l2 =>
      obtain ⟨a, ha⟩ := ih (by simp)
      exact ⟨a, by rw [List.getLast?_cons_cons]; exact ha⟩

/-- The frame loop of process_video under a failing backend: it completes
on uniform-geometry input and every produced frame has the target
geometry. -/
theorem processVideoGo_total_fail (ctx : Ctx) (s : Nat) (W H : Nat)
    (hblur : blurPreservesDims ctx) (hfail : backendFails ctx)
    (hw : W ≠ 0) (hsrc : 3 ≤ H) :
    ∀ (frames : List Img) (st : ExtState) (i : Nat) (acc : List Img),
      (∀ f ∈ frames, f.width = W ∧ f.height = H) →
      (∀ f ∈ acc, f.width = W ∧ f.height = targetHeight W) →
      (acc = [] → i % s = 0) →
      ∃ out st2, processVideoGo ctx s st i acc frames = some (out, st2) ∧
        out.length = acc.length + frames.length ∧
        ∀ f ∈ out, f.width = W ∧ f.height = targetHeight W := by
  intro frames
  induction frames with
  | nil =>
    intro st i acc _ hacc _
    exact ⟨acc, st, rfl, by simp [processVideoGo], hacc⟩
  | cons f rest ih =>
    intro st i acc hfr hacc hinv
    have hf := hfr f (List.mem_cons_self f rest)
    have hrest : ∀ g ∈ rest, g.width = W ∧ g.height = H :=
      fun g hg => hfr g (List.mem_cons_of_mem f hg)
    rw [processVideoGo]
    by_cases hi : i % s = 0
    · rw [if_pos hi]
      have hsw : (swapRB f).width = W := hf.1
      have hsh : 3 ≤ (swapRB f).height := by
        have : (swapRB f).height = H := hf.2
        omega
      obtain ⟨res, st1, n, hres, hrw, hrh⟩ :=
        analyze_total_fail ctx st (swapRB f) hblur hfail (by rw [hsw]; exact hw) hsh
      rw [hres]
      have haccres : ∀ g ∈ acc ++ [res], g.width = W ∧ g.height = targetHeight W := by
        intro g hg
        rcases List.mem_append.1 hg with h | h
        · exact hacc g h
        · rw [List.mem_singleton] at h
          subst h
          rw [hrw, hrh, hsw]
          exact ⟨rfl, rfl⟩
      obtain ⟨out, st2, hgo, hlen, hdims⟩ :=
        ih st1 (i + 1) (acc ++ [res]) hrest haccres (by simp)
      refine ⟨out, st2, hgo, ?_, hdims⟩
      rw [hlen]
      simp
      omega
    · rw [if_neg hi]
      have hne : acc ≠ [] := fun h => hi (hinv h)
      obtain ⟨a, ha⟩ := getLast?_isSome_of_ne_nil acc hne
      rw [ha]
      have haccres : ∀ g ∈ acc ++ [a], g.width = W ∧ g.height = targetHeight W := by
        intro g hg
        rcases List.mem_append.1 hg with h | h
        · exact hacc g h
        · rw [List.mem_singleton] at h
          subst h
          exact hacc g (getLast?_mem acc g ha)
      obtain ⟨out, st2, hgo, hlen, hdims⟩ :=
        ih st (i + 1) (acc ++ [a]) hrest haccres (by simp)
      refine ⟨out, st2, hgo, ?_, hdims⟩
      rw [hlen]
      simp
      omega

/-- Claim C6 (corrected).  First conjunct: an extension request with no
configured credential returns exactly the procedural fallback result,
with zero backend invocations.  Second conjunct: a request whose backend
call fails (raises or yields no image) returns exactly the procedural
fallback result, with exactly one backend invocation (no retry); in both
cases the failure is absorbed, nothing is cached, and only the miss
counter moves.  Third conjunct: an always-failing backend still yields a
complete output video with every frame of the correct dimensions,
provided the source frames are at least 3 rows tall (shorter frames
crash the fallback itself, see the counterexample). -/
theorem c6_backend_failure_fallback (ctx : Ctx) :
    (∀ (st : ExtState) (img : Img) (side : Side) (width : Nat) (extH : Int),
       ¬(extH ≤ 0 ∨ width = 0) →
       findEntry st.cache (genKey img side width extH) = none →
       ctx.apiToken = false →
       generateAIExtension ctx st img side width extH =
         (fallbackExtension ctx img side width extH,
          { st with misses := st.misses + 1 }, 0)) ∧
    (∀ (st : ExtState) (img : Img) (side : Side) (width : Nat) (extH : Int),
       ¬(extH ≤ 0 ∨ width = 0) →
       findEntry st.cache (genKey img side width extH) = none →
       ctx.apiToken = true → ctx.netGen img (promptFromImage img side) = none →
       generateAIExtension ctx st img side width extH =
         (fallbackExtension ctx img side width extH,
          { st with misses := st.misses + 1 }, 1)) ∧
    (∀ (st : ExtState) (frames : List Img) (sampleRate W H : Nat),
       blurPreservesDims ctx → backendFails ctx → sampleRate ≠ 0 →
       W ≠ 0 → 3 ≤ H → (∀ f ∈ frames, f.width = W ∧ f.height = H) →
       ∃ out st2, processVideo ctx st frames sampleRate = some (out, st2) ∧
         out.length = frames.length ∧
         ∀ f ∈ out, f.width = W ∧ f.height = targetHeight W) := by
  refine ⟨?_, ?_, ?_⟩
  · intro st img side width extH hg hfind htok
    exact genExt_miss_noToken ctx st img side width extH hg hfind htok
  · intro st img side width extH hg hfind htok _hgen
    exact genExt_miss_token ctx st img side width extH hg hfind htok
  · intro st frames sampleRate W H hblur hfail hs hw hsrc hfr
    obtain ⟨out, st2, hgo, hlen, hdims⟩ :=
      processVideoGo_total_fail ctx sampleRate W H hblur hfail hw hsrc frames st 0 []
        hfr (by simp) (by simp)
    refine ⟨out, st2, ?_, by simpa using hlen, hdims⟩
    rw [processVideo, if_neg hs]
    exact hgo

/-- Witness for C6: against the token-less context, a concrete request
returns exactly the fallback result with zero backend invocations, and a
concrete 2-frame run completes with 2 frames of the 9 by 16 geometry. -/
theorem c6_backend_failure_fallback_witness :
    generateAIExtension ctxNoToken initState frameA Side.top 9 6 =
      (fallbackExtension ctxNoToken frameA Side.top 9 6,
       { initState with misses := initState.misses + 1 }, 0) ∧
    (∃ out st2, processVideo ctxNoToken initState [frameA, frameA] 1 = some (out, st2) ∧
      out.length = 2 ∧ ∀ f ∈ out, f.width = 9 ∧ f.height = targetHeight 9) := by
  constructor
  · exact (c6_backend_failure_fallback ctxNoToken).1 initState frameA Side.top 9 6
      (by decide) rfl rfl
  · have h := (c6_backend_failure_fallback ctxNoToken).2.2 initState [frameA, frameA]
      1 9 4 (fun _ => ⟨rfl, rfl⟩) (Or.inl rfl) (by decide) (by decide) (by decide)
      (by decide)
    simpa using h

/-- Counterexample to C6 as stated: a run over a single 9 by 2 frame with
the failing (token-less) backend does not yield a complete output; the
fallback itself raises on the empty edge strip and the whole run dies. -/
theorem c6_short_frame_run_crashes :
    (processVideo ctxNoToken initState [Img.new 9 2 (1, 1, 1)] 1).isNone = true := by
  decide

/-!
Claim C4: the output frame count equals the input frame count.
-/

/-- The uniform-sampling loop emits exactly one frame per input frame
(the first frame is always on the sampling boundary, so the duplicate
branch always has a frame to copy). -/
theorem processVideoGo_length (ctx : Ctx) (s : Nat) :
    ∀ (frames : List Img) (st : ExtState) (i : Nat) (acc : List Img),
      (acc = [] → i % s = 0) →
      ∀ out st2, processVideoGo ctx s st i acc frames = some (out, st2) →
        out.length = acc.length + frames.length := by
  intro frames
  induction frames with
  | nil =>
    intro st i acc _ out st2 h
    rw [processVideoGo] at h
    injection h with h
    injection h with h1 h2
    rw [← h1]
    simp
  | cons f rest ih =>
    intro st i acc hinv out st2 h
    rw [processVideoGo] at h
    by_cases hi : i % s = 0
    · rw [if_pos hi] at h
      cases hana : analyzeFrameAndExtend ctx st (swapRB f) with
      | none =>
        rw [hana] at h
        exact absurd h (by simp)
      | some p =>
        obtain ⟨ext, st1, n⟩ := p
        rw [hana] at h
        have := ih st1 (i + 1) (acc ++ [ext]) (by simp) out st2 h
        rw [this]
        simp
        omega
    · rw [if_neg hi] at h
      cases hlast : acc.getLast? with
      | none =>
        by_cases hae : acc = []
        · exact absurd (hinv hae) hi
        · obtain ⟨a, ha⟩ := getLast?_isSome_of_ne_nil acc hae
          rw [ha] at hlast
          exact absurd hlast (by simp)
      | some a =>
        rw [hlast] at h
        have := ih st (i + 1) (acc ++ [a]) (by simp) out st2 h
        rw [this]
        simp
        omega

/-- The interpolation pass emits exactly one frame per processed index. -/
theorem secondPassGo_length (m : List (Nat × Img)) (total interval : Nat) :
    ∀ (idxs : List Nat) (out : List Img),
      secondPassGo m total interval idxs = some out → out.length = idxs.length := by
  intro idxs
  induction idxs with
  | nil =>
    intro out h
    injection h with h
    rw [← h]
    rfl
  | cons i rest ih =>
    intro out h
    rw [secondPassGo] at h
    cases hwr : writeFrame m total interval i with
    | none =>
      rw [hwr] at h
      exact absurd h (by simp)
    | some f =>
      rw [hwr] at h
      cases hrec : secondPassGo m total interval rest with
      | none =>
        rw [hrec] at h
        exact absurd h (by simp)
      | some out1 =>
        rw [hrec] at h
        injection h with h
        rw [← h]
        simp [ih out1 hrec]

/-- Inversion of a completed keyframe-mode run: the first pass produced
a keyframe map and the second pass produced the output from it. -/
theorem processVideoKeyframes_inv (ctx : Ctx) (st : ExtState) (frames : List Img)
    (interval : Nat) (out : List Img) (st2 : ExtState)
    (h : processVideoKeyframes ctx st frames interval = some (out, st2)) :
    ∃ m, firstPassKeyframes ctx st frames interval = some (m, st2) ∧
      secondPass m frames.length interval = some out := by
  rw [processVideoKeyframes] at h
  split at h
  · exact absurd h (by simp)
  · rename_i m st1 hfp
    split at h
    · exact absurd h (by simp)
    · rename_i out1 hsp
      injection h with h
      injection h with h1 h2
      subst h1
      subst h2
      exact ⟨m, hfp, hsp⟩

/-- Claim C4 (confirmed).  Whenever a run completes, the output sequence
has exactly one frame per decoded input frame, in uniform-sampling mode
(skipped frames duplicate the most recent processed frame) and in
keyframe-interpolation mode alike. -/
theorem c4_output_count_eq_input_count (ctx : Ctx) (st : ExtState)
    (frames : List Img) (sampleRate interval : Nat) :
    (processVideo ctx st frames sampleRate).map (fun p => p.1.length) =
      (processVideo ctx st frames sampleRate).map (fun _ => frames.length) ∧
    (processVideoKeyframes ctx st frames interval).map (fun p => p.1.length) =
      (processVideoKeyframes ctx st frames interval).map (fun _ => frames.length) := by
  constructor
  · cases h : processVideo ctx st frames sampleRate with
    | none => rfl
    | some p =>
      obtain ⟨out, st2⟩ := p
      simp only [Option.map_some']
      by_cases hs : sampleRate = 0
      · rw [processVideo, if_pos hs] at h
        exact absurd h (by simp)
      · rw [processVideo, if_neg hs] at h
        have := processVideoGo_length ctx sampleRate frames st 0 [] (by simp) out st2 h
        simpa using this
  · cases h : processVideoKeyframes ctx st frames interval with
    | none => rfl
    | some p =>
      obtain ⟨out, st2⟩ := p
      simp only [Option.map_some']
      obtain ⟨m, hfp, hsp⟩ := processVideoKeyframes_inv ctx st frames interval out st2 h
      have := secondPassGo_length m frames.length interval
        (List.range frames.length) out hsp
      rw [this]
      simp

/-!
Structure of the keyframe map and the interpolation pass.
-/

theorem mem_keyframeIndices (total d j : Nat) :
    j ∈ keyframeIndices total d ↔ j % d = 0 ∧ j < total := by
  unfold keyframeIndices
  rw [List.mem_filter, List.mem_range]
  simp [and_comm]

/-- The keys of the keyframe map produced by the first pass are exactly
the processed indices, in order. -/
theorem firstPassGo_keys (ctx : Ctx) (frames : List Img) :
    ∀ (idxs : List Nat) (st : ExtState) (m : List (Nat × Img)) (st2 : ExtState),
      firstPassGo ctx frames st idxs = some (m, st2) → m.map Prod.fst = idxs := by
  intro idxs
  induction idxs with
  | nil =>
    intro st m st2 h
    injection h with h
    injection h with h1 h2
    rw [← h1]
    rfl
  | cons j rest ih =>
    intro st m st2 h
    rw [firstPassGo] at h
    split at h
    · exact absurd h (by simp)
    · rename_i f hget
      split at h
      · exact absurd h (by simp)
      · rename_i ext st1 n hana
        split at h
        · exact absurd h (by simp)
        · rename_i m1 st3 hrec
          injection h with h
          injection h with h1 h2
          rw [← h1]
          simp [ih st1 m1 st3 hrec]

theorem kfLookup_eq_none_iff (m : List (Nat × Img)) (k : Nat) :
    kfLookup m k = none ↔ ∀ e ∈ m, e.1 ≠ k := by
  induction m with
  | nil => simp [kfLookup]
  | cons e m ih =>
    by_cases he : e.1 = k
    · simp [kfLookup, he]
    · simp [kfLookup, he, ih]

theorem kfLookup_isSome_of_mem_keys (m : List (Nat × Img)) (k : Nat)
    (h : k ∈ m.map Prod.fst) : ∃ v, kfLookup m k = some v := by
  induction m with
  | nil => simp at h
  | cons e m ih =>
    rw [List.map_cons, List.mem_cons] at h
    by_cases he : e.1 = k
    · exact ⟨e.2, by rw [kfLookup, if_pos he]⟩
    · rcases h with h | h
      · exact absurd h.symm he
      · obtain ⟨v, hv⟩ := ih h
        exact ⟨v, by rw [kfLookup, if_neg he]; exact hv⟩

/-- The interpolation pass succeeds as soon as every index it visits can
be written. -/
theorem secondPassGo_total (m : List (Nat × Img)) (total interval : Nat) :
    ∀ (idxs : List Nat),
      (∀ i ∈ idxs, (writeFrame m total interval i).isSome = true) →
      ∃ out, secondPassGo m total interval idxs = some out := by
  intro idxs
  induction idxs with
  | nil => exact fun _ => ⟨[], rfl⟩
  | cons i rest ih =>
    intro hall
    have hi := hall i (List.mem_cons_self i rest)
    cases hwr : writeFrame m total interval i with
    | none => rw [hwr] at hi; exact absurd hi (by simp)
    | some f =>
      obtain ⟨out1, hout1⟩ := ih (fun j hj => hall j (List.mem_cons_of_mem i hj))
      exact ⟨f :: out1, by rw [secondPassGo, hwr, hout1]⟩

/-- The frame the interpolation pass writes at position j of its output
is exactly the writeFrame of the j-th visited index. -/
theorem secondPassGo_get? (m : List (Nat × Img)) (total interval : Nat) :
    ∀ (idxs : List Nat) (out : List Img),
      secondPassGo m total interval idxs = some out →
      ∀ j, out.get? j = (idxs.get? j).bind (writeFrame m total interval) := by
  intro idxs
  induction idxs with
  | nil =>
    intro out h j
    injection h with h
    rw [← h]
    rfl
  | cons i rest ih =>
    intro out h j
    rw [secondPassGo] at h
    cases hwr : writeFrame m total interval i with
    | none => rw [hwr] at h; exact absurd h (by simp)
    | some f =>
      rw [hwr] at h
      cases hrec : secondPassGo m total interval rest with
      | none => rw [hrec] at h; exact absurd h (by simp)
      | some out1 =>
        rw [hrec] at h
        injection h with h
        rw [← h]
        cases j with
        | zero => simp [hwr]
        | succ j2 => simpa using ih out1 hrec j2

/-- Core facts about one completed keyframe first pass: the map keys are
exactly the multiples of the interval below the frame count; keyframe
indices are present; for a non-keyframe index its own key is absent while
both neighbour keys are present; and the interpolation pass completes
with one output frame per index, each the writeFrame of its index. -/
theorem keyframeRun_facts (ctx : Ctx) (st : ExtState) (frames : List Img)
    (interval : Nat) (m : List (Nat × Img)) (st1 : ExtState)
    (hd : interval ≠ 0)
    (heq : firstPassKeyframes ctx st frames interval = some (m, st1)) :
    m.map Prod.fst = keyframeIndices frames.length interval ∧
    (∀ i, i < frames.length → ¬ i % interval = 0 →
      kfLookup m i = none ∧
      (∃ P, kfLookup m (prevKf interval i) = some P) ∧
      (∃ N, kfLookup m (nextKf frames.length interval i) = some N)) ∧
    ∃ out, secondPass m frames.length interval = some out ∧
      out.length = frames.length ∧
      ∀ j, out.get? j =
        ((List.range frames.length).get? j).bind (writeFrame m frames.length interval) := by
  have hkeys : m.map Prod.fst = keyframeIndices frames.length interval := by
    rw [firstPassKeyframes, if_neg hd] at heq
    exact firstPassGo_keys ctx frames _ st m st1 heq
  have hmemkeys : ∀ j, j % interval = 0 → j < frames.length →
      ∃ v, kfLookup m j = some v := by
    intro j hj1 hj2
    apply kfLookup_isSome_of_mem_keys
    rw [hkeys, mem_keyframeIndices]
    exact ⟨hj1, hj2⟩
  have hnonkf : ∀ i, i < frames.length → ¬ i % interval = 0 →
      kfLookup m i = none ∧
      (∃ P, kfLookup m (prevKf interval i) = some P) ∧
      (∃ N, kfLookup m (nextKf frames.length interval i) = some N) := by
    intro i hi hnd
    have hself : kfLookup m i = none := by
      rw [kfLookup_eq_none_iff]
      intro e he hei
      have : e.1 ∈ m.map Prod.fst := List.mem_map_of_mem Prod.fst he
      rw [hkeys, mem_keyframeIndices] at this
      rw [hei] at this
      exact hnd this.1
    have hprevmod : prevKf interval i % interval = 0 := by
      unfold prevKf
      exact Nat.mul_mod_left (i / interval) interval
    have hprevle : prevKf interval i ≤ i := Nat.div_mul_le_self i interval
    have hprev := hmemkeys (prevKf interval i) hprevmod (by omega)
    refine ⟨hself, hprev, ?_⟩
    unfold nextKf
    split_ifs with hcl
    · exact hprev
    · apply hmemkeys
      · have hrw : prevKf interval i + interval = (i / interval + 1) * interval := by
          unfold prevKf
          ring
        rw [hrw]
        exact Nat.mul_mod_left (i / interval + 1) interval
      · omega
  refine ⟨hkeys, hnonkf, ?_⟩
  have hall : ∀ j ∈ List.range frames.length,
      (writeFrame m frames.length interval j).isSome = true := by
    intro j hj
    rw [List.mem_range] at hj
    by_cases hjm : j % interval = 0
    · obtain ⟨v, hv⟩ := hmemkeys j hjm hj
      rw [writeFrame, hv]
      rfl
    · obtain ⟨hnone, ⟨P, hP⟩, ⟨N, hN⟩⟩ := hnonkf j hj hjm
      rw [writeFrame, hnone, hP, hN]
      rfl
  obtain ⟨out, hout⟩ := secondPassGo_total m frames.length interval
    (List.range frames.length) hall
  refine ⟨out, hout, ?_, secondPassGo_get? m frames.length interval _ out hout⟩
  have := secondPassGo_length m frames.length interval (List.range frames.length) out hout
  simpa using this

/-!
Claim C9: the previous keyframe is always present; the missing-neighbour
fallback branch is dead.
-/

/-- Claim C9 (confirmed).  Once the first pass completes, every
non-keyframe index finds both its previous keyframe
floor(i/interval)*interval and its (clamped) next keyframe in the map, so
the missing-neighbour fallback branch of the second pass can never be
taken, and the pass writes exactly one frame per index without raising. -/
theorem c9_neighbour_keyframes_always_present (ctx : Ctx) (st : ExtState)
    (frames : List Img) (interval : Nat) (hd : interval ≠ 0)
    (hfp : (firstPassKeyframes ctx st frames interval).isSome = true) :
    ∃ m st1 out, firstPassKeyframes ctx st frames interval = some (m, st1) ∧
      (∀ i, i < frames.length → ¬ i % interval = 0 →
        (kfLookup m (prevKf interval i)).isSome = true ∧
        (kfLookup m (nextKf frames.length interval i)).isSome = true) ∧
      secondPass m frames.length interval = some out ∧
      out.length = frames.length ∧
      processVideoKeyframes ctx st frames interval = some (out, st1) := by
  cases hrun : firstPassKeyframes ctx st frames interval with
  | none =>
    rw [hrun] at hfp
    exact absurd hfp (by simp)
  | some q =>
    obtain ⟨m, st1⟩ := q
    obtain ⟨hkeys, hnonkf, out, hsp, hlen, hget⟩ :=
      keyframeRun_facts ctx st frames interval m st1 hd hrun
    refine ⟨m, st1, out, rfl, ?_, hsp, hlen, ?_⟩
    · intro i hi hnd
      obtain ⟨-, ⟨P, hP⟩, ⟨N, hN⟩⟩ := hnonkf i hi hnd
      exact ⟨by rw [hP]; rfl, by rw [hN]; rfl⟩
    · simp only [processVideoKeyframes, hrun, hsp]

/-- Witness for C9: a concrete 5-frame token-less run at interval 2
(keyframes 0, 2, 4). -/
theorem c9_neighbour_keyframes_always_present_witness :
    ∃ m st1 out,
      firstPassKeyframes ctxNoToken initState (List.replicate 5 frameA) 2 =
        some (m, st1) ∧
      (∀ i, i < (List.replicate 5 frameA).length → ¬ i % 2 = 0 →
        (kfLookup m (prevKf 2 i)).isSome = true ∧
        (kfLookup m (nextKf (List.replicate 5 frameA).length 2 i)).isSome = true) ∧
      secondPass m (List.replicate 5 frameA).length 2 = some out ∧
      out.length = (List.replicate 5 frameA).length ∧
      processVideoKeyframes ctxNoToken initState (List.replicate 5 frameA) 2 =
        some (out, st1) :=
  c9_neighbour_keyframes_always_present ctxNoToken initState
    (List.replicate 5 frameA) 2 (by decide) (by decide)

/-!
Claim C3: interpolated frames are the linear blend of their neighbour
keyframes.
-/

/-- Claim C3 (confirmed).  In keyframe mode, for every index i below the
frame count that is not a multiple of the interval, the output frame is
the pixelwise blend (1 - t) * keyframe[prev] + t * keyframe[next] with
prev = floor(i/interval)*interval, next = prev + interval clamped back to
prev when it reaches past the frame count, and
t = (i - prev)/(next - prev), 0 when next = prev. -/
theorem c3_interpolated_frame_blend (ctx : Ctx) (st : ExtState)
    (frames : List Img) (interval i : Nat) (hd : interval ≠ 0)
    (hi : i < frames.length) (hnd : ¬ i % interval = 0)
    (hfp : (firstPassKeyframes ctx st frames interval).isSome = true) :
    ∃ m st1 out P N, firstPassKeyframes ctx st frames interval = some (m, st1) ∧
      secondPass m frames.length interval = some out ∧
      kfLookup m (prevKf interval i) = some P ∧
      kfLookup m (nextKf frames.length interval i) = some N ∧
      out.get? i = some (addWeighted P (1 - blendT frames.length interval i) N
        (blendT frames.length interval i)) ∧
      prevKf interval i = i / interval * interval ∧
      nextKf frames.length interval i =
        (if frames.length ≤ prevKf interval i + interval then prevKf interval i
         else prevKf interval i + interval) ∧
      blendT frames.length interval i =
        (if prevKf interval i < nextKf frames.length interval i then
          ((i : ℚ) - (prevKf interval i : ℚ)) /
            ((nextKf frames.length interval i : ℚ) - (prevKf interval i : ℚ))
         else 0) := by
  cases hrun : firstPassKeyframes ctx st frames interval with
  | none =>
    rw [hrun] at hfp
    exact absurd hfp (by simp)
  | some q =>
    obtain ⟨m, st1⟩ := q
    obtain ⟨hkeys, hnonkf, out, hsp, hlen, hget⟩ :=
      keyframeRun_facts ctx st frames interval m st1 hd hrun
    obtain ⟨hnone, ⟨P, hP⟩, ⟨N, hN⟩⟩ := hnonkf i hi hnd
    refine ⟨m, st1, out, P, N, rfl, hsp, hP, hN, ?_, rfl, rfl, rfl⟩
    rw [hget i, List.get?_range hi]
    show writeFrame m frames.length interval i = _
    rw [writeFrame, hnone, hP, hN]

/-- Witness for C3: the concrete 5-frame run at interval 2, index 1. -/
theorem c3_interpolated_frame_blend_witness :
    ∃ m st1 out P N,
      firstPassKeyframes ctxNoToken initState (List.replicate 5 frameA) 2 =
        some (m, st1) ∧
      secondPass m (List.replicate 5 frameA).length 2 = some out ∧
      kfLookup m (prevKf 2 1) = some P ∧
      kfLookup m (nextKf (List.replicate 5 frameA).length 2 1) = some N ∧
      out.get? 1 = some (addWeighted P (1 - blendT (List.replicate 5 frameA).length 2 1)
        N (blendT (List.replicate 5 frameA).length 2 1)) ∧
      prevKf 2 1 = 1 / 2 * 2 ∧
      nextKf (List.replicate 5 frameA).length 2 1 =
        (if (List.replicate 5 frameA).length ≤ prevKf 2 1 + 2 then prevKf 2 1
         else prevKf 2 1 + 2) ∧
      blendT (List.replicate 5 frameA).length 2 1 =
        (if prevKf 2 1 < nextKf (List.replicate 5 frameA).length 2 1 then
          ((1 : ℚ) - (prevKf 2 1 : ℚ)) /
            ((nextKf (List.replicate 5 frameA).length 2 1 : ℚ) - (prevKf 2 1 : ℚ))
         else 0) :=
  c3_interpolated_frame_blend ctxNoToken initState (List.replicate 5 frameA) 2 1
    (by decide) (by decide) (by decide) (by decide)

/-!
Claim C8: interval 24, 50 frames.
-/

/-- Claim C8 (corrected).  With interval 24 and 50 frames the keyframes
are 0, 24 and 48 (not just 0 and 24: range(0, 50, 24) includes 48), and
frame 36 is not the clamped copy of keyframe 24: its next keyframe index
48 is below the total 50, so no clamping happens and the output at index
36 is the 50/50 blend of keyframe 24 and keyframe 48 (t = (36-24)/(48-24)
= 1/2). -/
theorem c8_frame36_is_blend_of_kf24_kf48 (ctx : Ctx) (st : ExtState)
    (frames : List Img) (hlen : frames.length = 50)
    (hfp : (firstPassKeyframes ctx st frames 24).isSome = true) :
    ∃ m st1 out P N, firstPassKeyframes ctx st frames 24 = some (m, st1) ∧
      m.map Prod.fst = [0, 24, 48] ∧
      secondPass m frames.length 24 = some out ∧
      kfLookup m 24 = some P ∧
      kfLookup m 48 = some N ∧
      out.get? 36 = some (addWeighted P (1 - (1 / 2 : ℚ)) N (1 / 2 : ℚ)) := by
  cases hrun : firstPassKeyframes ctx st frames 24 with
  | none =>
    rw [hrun] at hfp
    exact absurd hfp (by simp)
  | some q =>
    obtain ⟨m, st1⟩ := q
    obtain ⟨hkeys, hnonkf, out, hsp, hlenout, hget⟩ :=
      keyframeRun_facts ctx st frames 24 m st1 (by decide) hrun
    rw [hlen] at hkeys
    have hkeys2 : m.map Prod.fst = [0, 24, 48] := by
      rw [hkeys]
      decide
    have hp : prevKf 24 36 = 24 := by decide
    have hn : nextKf frames.length 24 36 = 48 := by
      rw [hlen]
      decide
    obtain ⟨hnone, ⟨P, hP⟩, ⟨N, hN⟩⟩ := hnonkf 36 (by omega) (by decide)
    rw [hp] at hP
    rw [hn] at hN
    have ht : blendT frames.length 24 36 = 1 / 2 := by
      rw [hlen]
      simp only [blendT]
      have hp2 : prevKf 24 36 = 24 := by decide
      have hn2 : nextKf 50 24 36 = 48 := by decide
      rw [hp2, hn2, if_pos (by norm_num)]
      norm_num
    refine ⟨m, st1, out, P, N, rfl, hkeys2, hsp, hP, hN, ?_⟩
    rw [hget 36, List.get?_range (by omega)]
    show writeFrame m frames.length 24 36 = _
    rw [writeFrame, hnone, hp, hn, hP, hN, ht]

/-- Witness for C8: a concrete token-less 50-frame run. -/
theorem c8_frame36_is_blend_of_kf24_kf48_witness :
    ∃ m st1 out P N,
      firstPassKeyframes ctxNoToken initState (List.replicate 50 frameA) 24 =
        some (m, st1) ∧
      m.map Prod.fst = [0, 24, 48] ∧
      secondPass m (List.replicate 50 frameA).length 24 = some out ∧
      kfLookup m 24 = some P ∧
      kfLookup m 48 = some N ∧
      out.get? 36 = some (addWeighted P (1 - (1 / 2 : ℚ)) N (1 / 2 : ℚ)) :=
  c8_frame36_is_blend_of_kf24_kf48 ctxNoToken initState (List.replicate 50 frameA)
    (by decide) (by decide)

/-- Counterexample to C8 as stated: on a concrete run with 50 frames and
interval 24 the keyframe map holds the three keys 0, 24 and 48, so
frames 0 and 24 are not the only keyframes; and for frame 36 the next
keyframe index is 48 = prev + interval (48 is below the total 50, no
clamping back to 24 takes place), so the premise that frame 36 copies
keyframe 24 because of clamping is false. -/
theorem c8_keyframe_set_is_0_24_48 :
    (firstPassKeyframes ctxNoToken initState (List.replicate 50 frameA) 24).map
        (fun p => p.1.map Prod.fst) = some [0, 24, 48] ∧
    prevKf 24 36 = 24 ∧
    nextKf 50 24 36 = 48 ∧
    nextKf 50 24 36 ≠ prevKf 24 36 :=
  ⟨by decide, by decide, by decide, by decide⟩
